import Mathlib

/-!
Verification of the STEP importer pipeline
(`src/rayforge/image/step/importer.py`, `StepImporter.get_doc_items`).

The pipeline is embedded shallowly over exact rational arithmetic.  The
external CAD kernel (CadQuery) is out of scope of the repository and is
modelled as an explicit behaviour record (`Kernel`): every capability the
source calls is a field whose value is the result that call returns in one
run, with `Except Err` marking calls that may raise.  Python exceptions are
modelled by the `Except Err` monad; a `try/except` block of the source
becomes a `match` on the guarded computation.
-/

namespace Rayforge

/-- An exception value (the payload of a raised Python exception). -/
inductive Err
  | exn : Nat → Err
deriving DecidableEq, Repr

/-- A 2D point with exact rational coordinates. -/
@[ext] structure Pt where
  x : ℚ
  y : ℚ
deriving DecidableEq, Repr

/-- Modelled from the spec: `AffineTransform`, "a 2D affine map (translation +
scale, composable)" backing the source's `Matrix` class (`core/matrix`, not
under src/).  `x' = a·x + b·y + e`, `y' = c·x + d·y + f`. -/
structure Mat where
  a : ℚ
  b : ℚ
  c : ℚ
  d : ℚ
  e : ℚ
  f : ℚ
deriving DecidableEq, Repr

/-- Apply an affine matrix to a point. -/
def Mat.apply (m : Mat) (p : Pt) : Pt :=
  ⟨m.a * p.x + m.b * p.y + m.e, m.c * p.x + m.d * p.y + m.f⟩

/-- `Matrix.translation(tx, ty)` of the source. -/
def Mat.translation (tx ty : ℚ) : Mat := ⟨1, 0, 0, 1, tx, ty⟩

/-- `Matrix.scale(sx, sy)` of the source. -/
def Mat.scale (sx sy : ℚ) : Mat := ⟨sx, 0, 0, sy, 0, 0⟩

/-- Matrix composition `m @ n` (the source's `@` operator): the rightmost
factor is applied first to a point, per the spec's composition invariant. -/
def Mat.comp (m n : Mat) : Mat :=
  ⟨m.a * n.a + m.b * n.c, m.a * n.b + m.b * n.d,
   m.c * n.a + m.d * n.c, m.c * n.b + m.d * n.d,
   m.a * n.e + m.b * n.f + m.e, m.c * n.e + m.d * n.f + m.f⟩

theorem Mat.apply_comp (m n : Mat) (p : Pt) :
    (m.comp n).apply p = m.apply (n.apply p) := by
  simp only [Mat.apply, Mat.comp]
  ext <;> ring

/-- Modelled from the spec: one drawing command of the mutable `Geometry`
container (`core/geo`, not under src/) — "mutable geometry built incrementally
via move/line commands". -/
inductive Cmd
  | moveTo : Pt → Cmd
  | lineTo : Pt → Cmd
deriving DecidableEq, Repr

/-- The point carried by a command. -/
def Cmd.pt : Cmd → Pt
  | .moveTo p => p
  | .lineTo p => p

/-- Map a point function over a command. -/
def Cmd.mapPt (f : Pt → Pt) : Cmd → Cmd
  | .moveTo p => .moveTo (f p)
  | .lineTo p => .lineTo (f p)

/-- Modelled from the spec: the `PathGeometry` container (`core/geo.Geometry`,
not under src/) — "an ordered collection of subpaths" built incrementally via
move/line commands, supporting bounding-box query, affine transform and an
is-empty predicate. -/
structure Geometry where
  commands : List Cmd
deriving DecidableEq, Repr

/-- `Geometry()` — the empty geometry. -/
def Geometry.empty : Geometry := ⟨[]⟩

/-- `geo.move_to(x, y)`: start a new subpath at `(x, y)`. -/
def Geometry.move_to (g : Geometry) (x y : ℚ) : Geometry :=
  ⟨g.commands ++ [.moveTo ⟨x, y⟩]⟩

/-- `geo.line_to(x, y)`: append a straight segment to `(x, y)`. -/
def Geometry.line_to (g : Geometry) (x y : ℚ) : Geometry :=
  ⟨g.commands ++ [.lineTo ⟨x, y⟩]⟩

/-- `geo.copy()`. -/
def Geometry.copy (g : Geometry) : Geometry := g

/-- All points mentioned by the geometry, in command order. -/
def Geometry.points (g : Geometry) : List Pt := g.commands.map Cmd.pt

/-- `geo.transform(matrix)`: apply the affine map to every point. -/
def Geometry.transform (g : Geometry) (m : Mat) : Geometry :=
  ⟨g.commands.map (Cmd.mapPt m.apply)⟩

/-- `geo.rect()` — the axis-aligned bounding box `(min_x, min_y, max_x,
max_y)` over all command points (`(0,0,0,0)` for an empty geometry; the
source only queries it on non-empty geometry). -/
def Geometry.rect (g : Geometry) : ℚ × ℚ × ℚ × ℚ :=
  match g.points with
  | [] => (0, 0, 0, 0)
  | p :: ps =>
    (ps.foldl (fun m q => min m q.x) p.x,
     ps.foldl (fun m q => min m q.y) p.y,
     ps.foldl (fun m q => max m q.x) p.x,
     ps.foldl (fun m q => max m q.y) p.y)

/-- Split the command list into subpaths: a `moveTo` opens a new subpath,
a `lineTo` extends the current one.  `cur` is the current subpath, reversed. -/
def subpathsGo : List Cmd → List Pt → List (List Pt)
  | [], cur => if cur.isEmpty then [] else [cur.reverse]
  | .moveTo p :: rest, cur =>
    (if cur.isEmpty then [] else [cur.reverse]) ++ subpathsGo rest [p]
  | .lineTo p :: rest, cur => subpathsGo rest (p :: cur)

/-- The subpaths of a geometry, each an ordered point list. -/
def Geometry.subpaths (g : Geometry) : List (List Pt) :=
  subpathsGo g.commands []

/-- `geo.is_empty()` — modelled from the spec: "an \"is empty\" predicate
(no subpaths or fewer than required points)" (§3), where every subpath
requires at least 2 points; §7 calls this fatal case "zero usable geometry".
A geometry is empty exactly when it holds no usable subpath: it has no
subpaths at all, or every subpath has fewer than the required 2 points. -/
def Geometry.is_empty (g : Geometry) : Bool :=
  g.subpaths.all (fun sp => decide (sp.length < 2))

/-- A planar face as seen through the kernel: a surface area (`f.Area()`)
plus an identity tag distinguishing faces of equal area. -/
structure Face where
  area : ℚ
  faceId : Nat
deriving DecidableEq, Repr

/-- One projected edge as seen through the kernel in a single run:
`startPoint()` (the `x`/`y` of the returned vector) and
`discretize(tolerance)`; each call may raise. -/
structure Edge where
  startPoint : Except Err Pt
  discretize : ℚ → Except Err (List Pt)

/-- One projected closed edge loop (`wire.Edges()`). -/
structure Wire where
  edges : List Edge

/-- A pending projection; `vals` is what `projection.vals()` returns
(the OCCT wire objects), and the call may raise. -/
structure Projection where
  vals : Except Err (List Wire)

/-- A 3D object (solid / shell / loose face) as consumed by the pipeline:
the planar-face query (`Workplane(obj).faces("%PLANE").vals()`) and the
aligned-projection construction
(`Workplane(obj=face).workplane().add(obj).toPending()`), each fallible. -/
structure CadObj where
  planarFaces : Except Err (List Face)
  alignProject : Face → Except Err Projection

/-- The parsed model: the three topology queries (`solids().vals()`,
`shells().vals()`, `faces().vals()`) and the default top-down projection
(`model.toPending()`, fallible). -/
structure Model where
  solids : List CadObj
  shells : List CadObj
  looseFaces : List CadObj
  toPending : Except Err Projection

/-- The whole external environment of one `get_doc_items` run: the
CadQuery availability flag, the temp-file write of the raw bytes
(lines 43–45, outside the `try`), and `cq.importers.importStep`. -/
structure Kernel where
  cqAvailable : Bool
  tempWrite : Except Err Unit
  importStep : Except Err Model

/-- Lines 54–60: `model.solids().vals()`, else `shells`, else `faces`. -/
def targetObjects (m : Model) : List CadObj :=
  if m.solids.isEmpty then
    (if m.shells.isEmpty then m.looseFaces else m.shells)
  else m.solids

/-- Stable insertion of a face into a list sorted by area, descending —
a face is placed before the first face of smaller-or-equal area. -/
def insertFace (x : Face) : List Face → List Face
  | [] => [x]
  | y :: ys => if y.area ≤ x.area then x :: y :: ys else y :: insertFace x ys

/-- Line 80: `faces.sort(key=lambda f: f.Area(), reverse=True)` — a stable
sort by area, descending (Python's `list.sort` is stable). -/
def sortFacesDesc : List Face → List Face
  | [] => []
  | x :: xs => insertFace x (sortFacesDesc xs)

/-- Lines 78–81: if any planar faces exist, sort by area descending and take
the first; otherwise no face is selected. -/
def selectFace (faces : List Face) : Option Face :=
  match sortFacesDesc faces with
  | [] => none
  | f :: _ => some f

/-- Lines 72–88, body of the alignment `try`: query planar faces, select the
largest, and build the aligned projection.  `.ok none` means no planar face
was found (the source leaves `projection = None`). -/
def attemptAlign (obj : CadObj) : Except Err (Option Projection) :=
  match obj.planarFaces with
  | .error e => .error e
  | .ok faces =>
    match selectFace faces with
    | none => .ok none
    | some f =>
      match obj.alignProject f with
      | .error e => .error e
      | .ok proj => .ok (some proj)

/-- Lines 69–94: attempt auto-alignment; on exception (caught at line 89) or
when no planar face exists, fall back to `model.toPending()`. -/
def chooseProjection (m : Model) (obj : CadObj) : Except Err Projection :=
  match attemptAlign obj with
  | .ok (some proj) => .ok proj
  | .ok none => m.toPending
  | .error _ => m.toPending

/-- Lines 114–126, one iteration of the edge loop: discretize the edge at
tolerance 0.05; on exception skip the edge (`except: continue`); on an empty
point list `continue`; otherwise `line_to` every point after the first and
increment `edge_count`. -/
def processEdges : List Edge → Geometry → Nat → Geometry × Nat
  | [], geo, cnt => (geo, cnt)
  | ed :: rest, geo, cnt =>
    match ed.discretize (1/20) with
    | .error _ => processEdges rest geo cnt
    | .ok [] => processEdges rest geo cnt
    | .ok (_ :: ps) =>
      processEdges rest (ps.foldl (fun g p => g.line_to p.x p.y) geo) (cnt + 1)

/-- Lines 106–126, one wire: skip wires with no edges; `move_to` the first
edge's start point (line 111, unguarded — a raise propagates); then process
every edge of the wire. -/
def processWire (geo : Geometry) (cnt : Nat) (w : Wire) :
    Except Err (Geometry × Nat) :=
  match w.edges with
  | [] => .ok (geo, cnt)
  | e0 :: _ =>
    match e0.startPoint with
    | .error e => .error e
    | .ok sp => .ok (processEdges w.edges (geo.move_to sp.x sp.y) cnt)

/-- The wire loop over all wires of the projection. -/
def processWires : List Wire → Geometry → Nat → Except Err (Geometry × Nat)
  | [], geo, cnt => .ok (geo, cnt)
  | w :: ws, geo, cnt =>
    match processWire geo cnt w with
    | .error e => .error e
    | .ok (geo2, cnt2) => processWires ws geo2 cnt2

/-- Line 170: `Matrix.translation(min_x, min_y) @ Matrix.scale(width,
height)` — the recorded placement transform of the extracted geometry. -/
def placementMat (geo : Geometry) : Mat :=
  match geo.rect with
  | (minx, miny, maxx, maxy) =>
    (Mat.translation minx miny).comp (Mat.scale (maxx - minx) (maxy - miny))

/-- Lines 148–156: normalize a copy of the geometry — translate by
`(−min_x, −min_y)`, scale by `(1/width, 1/height)` only when both width and
height are strictly positive, then flip vertically
(`Matrix.translation(0, 1) @ Matrix.scale(1, -1)`). -/
def normGeo (geo : Geometry) : Geometry :=
  match geo.rect with
  | (minx, miny, maxx, maxy) =>
    let w := maxx - minx
    let h := maxy - miny
    let g1 := geo.copy.transform (Mat.translation (-minx) (-miny))
    let g2 := if 0 < w ∧ 0 < h then g1.transform (Mat.scale (1/w) (1/h)) else g1
    g2.transform ((Mat.translation 0 1).comp (Mat.scale 1 (-1)))

/-- The packaged result, restricted to the fields the pipeline computes from
the geometry: the normalized geometry (`segment_mask_geometry`), the natural
size (`width_mm` / `height_mm`), and the placement matrix (`wp.matrix`). -/
structure ImportPayload where
  geometry : Geometry
  widthMm : ℚ
  heightMm : ℚ
  matrix : Mat
deriving DecidableEq, Repr

/-- Lines 128–172: fail with `None` if the extracted geometry is empty,
otherwise normalize and package. -/
def finishGeo (geo : Geometry) : Option ImportPayload :=
  if geo.is_empty then none
  else
    match geo.rect with
    | (minx, miny, maxx, maxy) =>
      some { geometry := normGeo geo,
             widthMm := maxx - minx,
             heightMm := maxy - miny,
             matrix := placementMat geo }

/-- Lines 101–172 given the wire list: fatal `None` when no wires (line
102–104), otherwise run the wire loop and finish. -/
def tryBodyWires (wires : List Wire) : Except Err (Option ImportPayload) :=
  if wires.isEmpty then .ok none
  else
    match processWires wires Geometry.empty 0 with
    | .error e => .error e
    | .ok gc => .ok (finishGeo gc.1)

/-- Line 101 given the chosen projection: `projection.vals()` may raise. -/
def tryBodyProj (proj : Projection) : Except Err (Option ImportPayload) :=
  match proj.vals with
  | .error e => .error e
  | .ok wires => tryBodyWires wires

/-- Lines 69–172 given the primary object: choose a projection (fallback on
alignment failure), then continue. -/
def tryBodyObj (model : Model) (obj : CadObj) :
    Except Err (Option ImportPayload) :=
  match chooseProjection model obj with
  | .error e => .error e
  | .ok proj => tryBodyProj proj

/-- Lines 54–172 given the parsed model: fatal `None` when the model holds
no solids, shells or faces (lines 62–64), else continue with the first
target object (line 66). -/
def tryBodyModel (model : Model) : Except Err (Option ImportPayload) :=
  match targetObjects model with
  | [] => .ok none
  | obj :: _ => tryBodyObj model obj

/-- Lines 47–172, the body of the outer `try`: parse, then run the rest of
the pipeline.  An `.error` is a Python exception reaching the outer
handler. -/
def tryBody (k : Kernel) : Except Err (Option ImportPayload) :=
  match k.importStep with
  | .error e => .error e
  | .ok model => tryBodyModel model

/-- `StepImporter.get_doc_items` (lines 37–176): return `None` when CadQuery
is unavailable; write the temp file (lines 43–45, **outside** the `try` — a
raise there propagates to the caller, modelled as `.error`); then run the
guarded body, converting any exception it raises into `None` (lines
174–176). -/
def get_doc_items (k : Kernel) : Except Err (Option ImportPayload) :=
  if k.cqAvailable then
    match k.tempWrite with
    | .error e => .error e
    | .ok _ =>
      match tryBody k with
      | .ok r => .ok r
      | .error _ => .ok none
  else .ok none

/-! ### Face selection (spec §4.3) -/

/-- Spec-side characterization of the selection with its tie-break ("stable
sort by area, descending", "first wins"): the first face of the input list
attaining the maximal area. -/
def firstMaxFace : List Face → Option Face
  | [] => none
  | f :: fs =>
    match firstMaxFace fs with
    | none => some f
    | some m => if m.area ≤ f.area then some f else some m

theorem head_insertFace (x : Face) (l : List Face) :
    (insertFace x l).head? =
      some (match l with
            | [] => x
            | y :: _ => if y.area ≤ x.area then x else y) := by
  cases l with
  | nil => rfl
  | cons y ys =>
    by_cases h : y.area ≤ x.area <;> simp [insertFace, h]

theorem insertFace_ne_nil (x : Face) (l : List Face) : insertFace x l ≠ [] := by
  cases l with
  | nil => simp [insertFace]
  | cons y ys => by_cases h : y.area ≤ x.area <;> simp [insertFace, h]

theorem sortFacesDesc_eq_nil_iff (fs : List Face) :
    sortFacesDesc fs = [] ↔ fs = [] := by
  cases fs with
  | nil => simp [sortFacesDesc]
  | cons f fs => simp [sortFacesDesc, insertFace_ne_nil]

theorem firstMaxFace_eq_none_iff (fs : List Face) :
    firstMaxFace fs = none ↔ fs = [] := by
  cases fs with
  | nil => simp [firstMaxFace]
  | cons f fs =>
    simp only [firstMaxFace]
    cases h : firstMaxFace fs with
    | none => simp
    | some m =>
      by_cases hle : m.area ≤ f.area <;> simp [hle]

theorem head_sortFacesDesc (fs : List Face) :
    (sortFacesDesc fs).head? = firstMaxFace fs := by
  induction fs with
  | nil => rfl
  | cons f fs ih =>
    show (insertFace f (sortFacesDesc fs)).head? = _
    rw [head_insertFace]
    cases h : sortFacesDesc fs with
    | nil =>
      have : fs = [] := (sortFacesDesc_eq_nil_iff fs).mp h
      subst this
      rfl
    | cons y ys =>
      rw [h] at ih
      simp only [List.head?] at ih
      simp only [firstMaxFace, ← ih]
      by_cases hle : y.area ≤ f.area <;> simp [hle]

theorem firstMaxFace_mem (fs : List Face) (f : Face)
    (h : firstMaxFace fs = some f) : f ∈ fs := by
  induction fs with
  | nil => simp [firstMaxFace] at h
  | cons g gs ih =>
    simp only [firstMaxFace] at h
    cases hm : firstMaxFace gs with
    | none => rw [hm] at h; simp at h; simp [h]
    | some m =>
      rw [hm] at h
      by_cases hle : m.area ≤ g.area
      · simp [hle] at h; simp [h]
      · simp [hle] at h
        subst h
        exact List.mem_cons_of_mem _ (ih hm)

theorem firstMaxFace_max :
    ∀ (fs : List Face) (f : Face), firstMaxFace fs = some f →
      ∀ g ∈ fs, g.area ≤ f.area := by
  intro fs
  induction fs with
  | nil => intro f h; simp [firstMaxFace] at h
  | cons a as ih =>
    intro f h g hg
    simp only [firstMaxFace] at h
    cases hm : firstMaxFace as with
    | none =>
      rw [hm] at h
      simp at h
      have : as = [] := (firstMaxFace_eq_none_iff as).mp hm
      subst this
      simp at hg
      subst hg
      subst h
      exact le_refl _
    | some m =>
      rw [hm] at h
      by_cases hle : m.area ≤ a.area
      · simp [hle] at h
        subst h
        rcases List.mem_cons.mp hg with hga | hgas
        · subst hga; exact le_refl _
        · exact le_trans (ih m hm g hgas) hle
      · simp [hle] at h
        subst h
        rcases List.mem_cons.mp hg with hga | hgas
        · subst hga; exact le_of_not_le hle
        · exact ih _ hm g hgas

theorem selectFace_eq_head (fs : List Face) :
    selectFace fs = (sortFacesDesc fs).head? := by
  cases h : sortFacesDesc fs <;> simp [selectFace, h]

theorem selectFace_eq_firstMaxFace (fs : List Face) :
    selectFace fs = firstMaxFace fs := by
  rw [selectFace_eq_head, head_sortFacesDesc]

/-- C2: for every object with at least one planar face, the selected face is
a planar face of maximal area among the object's planar faces; with no planar
faces nothing is selected; and the tie-break is deterministic — the selected
face is exactly the first face of the input list attaining the maximal area
(the result of the stable descending sort by area). -/
theorem c2_largest_planar_face_selected (fs : List Face) :
    (fs = [] → selectFace fs = none) ∧
    (fs ≠ [] → ∃ f, selectFace fs = some f ∧ f ∈ fs ∧
      (∀ g ∈ fs, g.area ≤ f.area) ∧ selectFace fs = firstMaxFace fs) := by
  constructor
  · intro h; subst h; rfl
  · intro hne
    rw [selectFace_eq_firstMaxFace]
    cases h : firstMaxFace fs with
    | none => exact absurd ((firstMaxFace_eq_none_iff fs).mp h) hne
    | some f =>
      exact ⟨f, rfl, firstMaxFace_mem fs f h, firstMaxFace_max fs f h, rfl⟩

/-- Witness for C2 at a concrete face list with an area tie: among the faces
of areas 3, 5, 5 the first face of area 5 is selected. -/
theorem c2_largest_planar_face_selected_witness :
    ∃ f, selectFace [⟨3, 0⟩, ⟨5, 1⟩, ⟨5, 2⟩] = some f ∧
      f ∈ [Face.mk 3 0, Face.mk 5 1, Face.mk 5 2] ∧
      (∀ g ∈ [Face.mk 3 0, Face.mk 5 1, Face.mk 5 2], g.area ≤ f.area) ∧
      selectFace [⟨3, 0⟩, ⟨5, 1⟩, ⟨5, 2⟩] =
        firstMaxFace [⟨3, 0⟩, ⟨5, 1⟩, ⟨5, 2⟩] :=
  (c2_largest_planar_face_selected [⟨3, 0⟩, ⟨5, 1⟩, ⟨5, 2⟩]).2 (by decide)

/-! ### Alignment planning (spec §4.4) and primary-object selection -/

/-- C3: alignment planning never re-raises — if the object has no planar
faces, or the planar-face query raises, or building the aligned projection
raises, the pipeline uses the model's default top-down projection
(`model.toPending()`); and the only way `chooseProjection` can yield an
exception is that the fallback projection itself raised, never the
alignment attempt. -/
theorem c3_alignment_never_reraises (m : Model) (obj : CadObj) :
    ((obj.planarFaces = .ok [] ∨
      (∃ e, obj.planarFaces = .error e) ∨
      (∃ fs f e, obj.planarFaces = .ok fs ∧ selectFace fs = some f ∧
        obj.alignProject f = .error e)) →
      chooseProjection m obj = m.toPending) ∧
    (∀ e, chooseProjection m obj = .error e → m.toPending = .error e) := by
  constructor
  · intro hfail
    cases hpf : obj.planarFaces with
    | error e => simp [chooseProjection, attemptAlign, hpf]
    | ok faces =>
      cases hsf : selectFace faces with
      | none => simp [chooseProjection, attemptAlign, hpf, hsf]
      | some f =>
        cases hap : obj.alignProject f with
        | error e => simp [chooseProjection, attemptAlign, hpf, hsf, hap]
        | ok proj =>
          exfalso
          rcases hfail with h1 | ⟨e, h2⟩ | ⟨fs, f2, e, h3, h4, h5⟩
          · rw [hpf] at h1
            injection h1 with h1
            subst h1
            simp [selectFace, sortFacesDesc] at hsf
          · rw [hpf] at h2
            exact Except.noConfusion h2
          · rw [hpf] at h3
            injection h3 with h3
            subst h3
            rw [hsf] at h4
            injection h4 with h4
            subst h4
            rw [hap] at h5
            exact Except.noConfusion h5
  · intro e he
    cases hpf : obj.planarFaces with
    | error e2 => simpa [chooseProjection, attemptAlign, hpf] using he
    | ok faces =>
      cases hsf : selectFace faces with
      | none => simpa [chooseProjection, attemptAlign, hpf, hsf] using he
      | some f =>
        cases hap : obj.alignProject f with
        | error e2 =>
          simpa [chooseProjection, attemptAlign, hpf, hsf, hap] using he
        | ok proj => simp [chooseProjection, attemptAlign, hpf, hsf, hap] at he

/-- A concrete object with no planar faces. -/
def noFaceObj : CadObj :=
  { planarFaces := .ok [], alignProject := fun _ => .error (Err.exn 0) }

/-- A concrete model holding only `noFaceObj`. -/
def noFaceModel : Model :=
  { solids := [noFaceObj], shells := [], looseFaces := [],
    toPending := .ok ⟨.ok []⟩ }

/-- Witness for C3: with no planar faces the fallback projection is used. -/
theorem c3_alignment_never_reraises_witness :
    chooseProjection noFaceModel noFaceObj = noFaceModel.toPending :=
  (c3_alignment_never_reraises noFaceModel noFaceObj).1 (Or.inl rfl)

/-- C4: the primary object is taken from the solids when any exist, else the
shells, else the loose faces (the first entry of the chosen list, since the
pipeline uses `target_objects[0]`); and when the model has no solids, no
shells and no faces the whole import returns an absent result. -/
theorem c4_primary_object_precedence (m : Model) (k : Kernel) :
    (m.solids ≠ [] → targetObjects m = m.solids) ∧
    (m.solids = [] → m.shells ≠ [] → targetObjects m = m.shells) ∧
    (m.solids = [] → m.shells = [] → targetObjects m = m.looseFaces) ∧
    (m.solids = [] → m.shells = [] → m.looseFaces = [] →
      k.cqAvailable = true → k.tempWrite = .ok () → k.importStep = .ok m →
      get_doc_items k = .ok none) := by
  refine ⟨?_, ?_, ?_, ?_⟩
  · intro h
    cases hs : m.solids with
    | nil => exact absurd hs h
    | cons a l => simp [targetObjects, hs]
  · intro h1 h2
    cases hsh : m.shells with
    | nil => exact absurd hsh h2
    | cons a l => simp [targetObjects, h1, hsh]
  · intro h1 h2
    simp [targetObjects, h1, h2]
  · intro h1 h2 h3 hcq htw him
    simp [get_doc_items, hcq, htw, tryBody, him, tryBodyModel, targetObjects,
      h1, h2, h3]

/-- A concrete model with no solids, shells or faces. -/
def emptyModel : Model :=
  { solids := [], shells := [], looseFaces := [], toPending := .ok ⟨.ok []⟩ }

/-- A concrete run environment delivering `emptyModel`. -/
def emptyModelKernel : Kernel :=
  { cqAvailable := true, tempWrite := .ok (), importStep := .ok emptyModel }

/-- Witness for C4: the import of a model with no recognized geometry
returns an absent result. -/
theorem c4_primary_object_precedence_witness :
    get_doc_items emptyModelKernel = .ok none :=
  (c4_primary_object_precedence emptyModel emptyModelKernel).2.2.2
    rfl rfl rfl rfl rfl rfl

/-! ### Normalization (spec §4.5) -/

theorem Cmd.mapPt_mapPt (f g : Pt → Pt) (c : Cmd) :
    (c.mapPt f).mapPt g = c.mapPt (fun p => g (f p)) := by
  cases c <;> rfl

theorem Cmd.pt_mapPt (f : Pt → Pt) (c : Cmd) : (c.mapPt f).pt = f c.pt := by
  cases c <;> rfl

theorem Geometry.transform_commands (g : Geometry) (m : Mat) :
    (g.transform m).commands = g.commands.map (Cmd.mapPt m.apply) := rfl

theorem map_mapPt_mapPt (f g : Pt → Pt) (l : List Cmd) :
    (l.map (Cmd.mapPt f)).map (Cmd.mapPt g) =
      l.map (Cmd.mapPt (fun p => g (f p))) := by
  rw [List.map_map]
  exact List.map_congr_left (fun c _ => Cmd.mapPt_mapPt f g c)

/-- Pointwise form of the normalization when width and height are both
positive: translate, scale into the unit square, flip vertically. -/
theorem normGeo_commands_of_pos (geo : Geometry) (minx miny maxx maxy : ℚ)
    (hrect : geo.rect = (minx, miny, maxx, maxy))
    (hwh : 0 < maxx - minx ∧ 0 < maxy - miny) :
    (normGeo geo).commands = geo.commands.map (Cmd.mapPt fun p =>
      ⟨(p.x - minx) / (maxx - minx), 1 - (p.y - miny) / (maxy - miny)⟩) := by
  have hw : (maxx - minx) ≠ 0 := ne_of_gt hwh.1
  have hh : (maxy - miny) ≠ 0 := ne_of_gt hwh.2
  simp only [normGeo, hrect, if_pos hwh, Geometry.copy,
    Geometry.transform_commands, map_mapPt_mapPt]
  refine List.map_congr_left (fun c _ => ?_)
  congr 1
  funext p
  simp only [Mat.apply, Mat.comp, Mat.translation, Mat.scale]
  ext
  · field_simp
    ring
  · field_simp
    ring

/-- Pointwise form of the normalization in the degenerate case (zero width
or zero height): the scale step is skipped, only translate and flip apply,
and every coordinate remains a plain finite rational. -/
theorem normGeo_commands_of_nonpos (geo : Geometry) (minx miny maxx maxy : ℚ)
    (hrect : geo.rect = (minx, miny, maxx, maxy))
    (hwh : ¬(0 < maxx - minx ∧ 0 < maxy - miny)) :
    (normGeo geo).commands = geo.commands.map (Cmd.mapPt fun p =>
      ⟨p.x - minx, 1 - (p.y - miny)⟩) := by
  simp only [normGeo, hrect, if_neg hwh, Geometry.copy,
    Geometry.transform_commands, map_mapPt_mapPt]
  refine List.map_congr_left (fun c _ => ?_)
  congr 1
  funext p
  simp only [Mat.apply, Mat.comp, Mat.translation, Mat.scale]
  ext
  · ring
  · ring

/-- C5: the normalized copy is the original geometry translated by
`(−minX, −minY)`, scaled by `(1/width, 1/height)` exactly when both width
and height are strictly positive, then flipped by `y ↦ 1 − y`; in the
degenerate case the scale step is skipped and every produced coordinate is
still a plain finite rational of the stated closed form. -/
theorem c5_normalization_characterized (geo : Geometry)
    (minx miny maxx maxy : ℚ)
    (hrect : geo.rect = (minx, miny, maxx, maxy)) :
    (0 < maxx - minx ∧ 0 < maxy - miny →
      (normGeo geo).commands = geo.commands.map (Cmd.mapPt fun p =>
        ⟨(p.x - minx) / (maxx - minx), 1 - (p.y - miny) / (maxy - miny)⟩)) ∧
    (¬(0 < maxx - minx ∧ 0 < maxy - miny) →
      (normGeo geo).commands = geo.commands.map (Cmd.mapPt fun p =>
        ⟨p.x - minx, 1 - (p.y - miny)⟩)) :=
  ⟨normGeo_commands_of_pos geo minx miny maxx maxy hrect,
   normGeo_commands_of_nonpos geo minx miny maxx maxy hrect⟩

/-- A concrete two-point geometry of width 2 and height 4. -/
def gC5 : Geometry := ⟨[.moveTo ⟨0, 0⟩, .lineTo ⟨2, 4⟩]⟩

/-- Witness for C5 at `gC5`: the positive-size branch applies. -/
theorem c5_normalization_characterized_witness :
    (normGeo gC5).commands = gC5.commands.map (Cmd.mapPt fun p =>
      ⟨(p.x - 0) / (2 - 0), 1 - (p.y - 0) / (4 - 0)⟩) :=
  (c5_normalization_characterized gC5 0 0 2 4 (by decide)).1 (by norm_num)

theorem foldl_min_x_map (f : Pt → Pt) (hf : ∀ p, (f p).x = p.x)
    (ps : List Pt) (a : ℚ) :
    (ps.map f).foldl (fun m q => min m q.x) a =
      ps.foldl (fun m q => min m q.x) a := by
  induction ps generalizing a with
  | nil => rfl
  | cons p ps ih => simp [List.foldl_cons, hf, ih]

theorem foldl_max_x_map (f : Pt → Pt) (hf : ∀ p, (f p).x = p.x)
    (ps : List Pt) (a : ℚ) :
    (ps.map f).foldl (fun m q => max m q.x) a =
      ps.foldl (fun m q => max m q.x) a := by
  induction ps generalizing a with
  | nil => rfl
  | cons p ps ih => simp [List.foldl_cons, hf, ih]

theorem foldl_min_y_reflect (c : ℚ) (ps : List Pt) (a : ℚ) :
    (ps.map (fun p => Pt.mk p.x (c - p.y))).foldl
        (fun m q => min m q.y) (c - a) =
      c - ps.foldl (fun m q => max m q.y) a := by
  induction ps generalizing a with
  | nil => rfl
  | cons p ps ih =>
    simp only [List.map_cons, List.foldl_cons]
    rw [min_sub_sub_left, ih]

theorem foldl_max_y_reflect (c : ℚ) (ps : List Pt) (a : ℚ) :
    (ps.map (fun p => Pt.mk p.x (c - p.y))).foldl
        (fun m q => max m q.y) (c - a) =
      c - ps.foldl (fun m q => min m q.y) a := by
  induction ps generalizing a with
  | nil => rfl
  | cons p ps ih =>
    simp only [List.map_cons, List.foldl_cons]
    rw [max_sub_sub_left, ih]

theorem points_of_map_mapPt (g : Geometry) (f : Pt → Pt) :
    Geometry.points ⟨g.commands.map (Cmd.mapPt f)⟩ = g.points.map f := by
  simp only [Geometry.points, List.map_map]
  exact List.map_congr_left (fun c _ => Cmd.pt_mapPt f c)

/-- The bounding box of a geometry reflected by `y ↦ c − y`: the x-range is
unchanged and the y-range is reflected. -/
theorem rect_map_reflect (g : Geometry) (c minx miny maxx maxy : ℚ)
    (hrect : g.rect = (minx, miny, maxx, maxy)) (hne : g.commands ≠ []) :
    Geometry.rect ⟨g.commands.map (Cmd.mapPt fun p => ⟨p.x, c - p.y⟩)⟩ =
      (minx, c - maxy, maxx, c - miny) := by
  have hpts : Geometry.points ⟨g.commands.map
      (Cmd.mapPt fun p => ⟨p.x, c - p.y⟩)⟩ =
      g.points.map (fun p => Pt.mk p.x (c - p.y)) :=
    points_of_map_mapPt g _
  cases hp : g.points with
  | nil =>
    exact absurd (List.map_eq_nil_iff.mp hp) hne
  | cons p ps =>
    rw [Geometry.rect, hp] at hrect
    simp only [Prod.mk.injEq] at hrect
    obtain ⟨h1, h2, h3, h4⟩ := hrect
    simp only [Geometry.rect, hpts, hp, List.map_cons, Prod.mk.injEq]
    refine ⟨?_, ?_, ?_, ?_⟩
    · rw [foldl_min_x_map (fun p => Pt.mk p.x (c - p.y)) (fun _ => rfl) ps]
      exact h1
    · rw [foldl_min_y_reflect c ps p.y, h4]
    · rw [foldl_max_x_map (fun p => Pt.mk p.x (c - p.y)) (fun _ => rfl) ps]
      exact h3
    · rw [foldl_max_y_reflect c ps p.y, h2]

theorem Geometry.eq_of_commands (g : Geometry) (l : List Cmd)
    (h : g.commands = l) : g = ⟨l⟩ := by
  cases g
  simpa using h

theorem isEmpty_map_pt (f : Pt → Pt) (l : List Pt) :
    (l.map f).isEmpty = l.isEmpty := by
  cases l <;> rfl

/-- Splitting into subpaths commutes with a pointwise map. -/
theorem subpathsGo_map (f : Pt → Pt) (cmds : List Cmd) :
    ∀ cur : List Pt,
      subpathsGo (cmds.map (Cmd.mapPt f)) (cur.map f) =
        (subpathsGo cmds cur).map (List.map f) := by
  induction cmds with
  | nil =>
    intro cur
    simp only [List.map_nil, subpathsGo]
    by_cases hc : cur.isEmpty
    · rw [if_pos (by rw [isEmpty_map_pt]; exact hc), if_pos hc]
      rfl
    · rw [if_neg (by rw [isEmpty_map_pt]; exact hc), if_neg hc]
      simp [List.map_reverse]
  | cons c rest ih =>
    intro cur
    cases c with
    | moveTo p =>
      simp only [List.map_cons, Cmd.mapPt, subpathsGo, List.map_append]
      congr 1
      · by_cases hc : cur.isEmpty
        · rw [if_pos (by rw [isEmpty_map_pt]; exact hc), if_pos hc]
          rfl
        · rw [if_neg (by rw [isEmpty_map_pt]; exact hc), if_neg hc]
          simp [List.map_reverse]
      · exact ih [p]
    | lineTo p =>
      simp only [List.map_cons, Cmd.mapPt, subpathsGo]
      exact ih (p :: cur)

/-- A pointwise map of the command list preserves the is-empty predicate:
subpath structure and point counts are unchanged. -/
theorem is_empty_map_commands (g : Geometry) (f : Pt → Pt) :
    (Geometry.mk (g.commands.map (Cmd.mapPt f))).is_empty = g.is_empty := by
  simp only [Geometry.is_empty, Geometry.subpaths]
  rw [show subpathsGo (g.commands.map (Cmd.mapPt f)) [] =
      (subpathsGo g.commands []).map (List.map f)
    from subpathsGo_map f g.commands [], List.all_map]
  congr 1
  funext sp
  simp

theorem commands_ne_nil_of_not_empty (g : Geometry)
    (h : g.is_empty = false) : g.commands ≠ [] := by
  intro hc
  simp only [Geometry.is_empty, Geometry.subpaths, hc] at h
  simp [subpathsGo] at h

/-- A concrete segment from `(0,0)` to `(1,2)` (bounding box `(0,0,1,2)`). -/
def gC6 : Geometry := ⟨[.moveTo ⟨0, 0⟩, .lineTo ⟨1, 2⟩]⟩

theorem gC6_rect : gC6.rect = (0, 0, 1, 2) := by decide

/-- Counterexample to C6 as stated: for the segment from `(0,0)` to `(1,2)`,
applying the recorded placement transform to the normalized geometry does
not reconstruct the original geometry (the result is its mirror image inside
the bounding box — the normalization's vertical flip is not undone by the
placement transform).  The model is exact rational arithmetic, so the
discrepancy is not floating-point rounding. -/
theorem gC6_placement : placementMat gC6 = ⟨1, 0, 0, 2, 0, 0⟩ := by
  simp only [placementMat, gC6_rect, Mat.comp, Mat.translation, Mat.scale]
  norm_num [Mat.mk.injEq]

theorem c6_roundtrip_counterexample :
    (normGeo gC6).transform (placementMat gC6) ≠ gC6 := by
  intro h
  have hcmds := congrArg Geometry.commands h
  rw [Geometry.transform_commands,
    normGeo_commands_of_pos gC6 0 0 1 2 gC6_rect
      ⟨by norm_num, by norm_num⟩,
    map_mapPt_mapPt, gC6_placement] at hcmds
  simp only [gC6, Cmd.mapPt, Mat.apply, List.map_cons, List.map_nil,
    List.cons.injEq, Cmd.moveTo.injEq, Cmd.lineTo.injEq, Pt.mk.injEq] at hcmds
  norm_num at hcmds

/-- C6 (amended): for every non-degenerate geometry, applying the recorded
placement transform to the normalized geometry reconstructs the original
bounding box exactly; the geometry itself is recovered only up to the
vertical reflection `y ↦ minY + maxY − y` within that box. -/
theorem c6_roundtrip_bbox (geo : Geometry) (minx miny maxx maxy : ℚ)
    (hne : geo.is_empty = false)
    (hrect : geo.rect = (minx, miny, maxx, maxy))
    (hw : 0 < maxx - minx) (hh : 0 < maxy - miny) :
    ((normGeo geo).transform (placementMat geo)).commands =
      geo.commands.map (Cmd.mapPt fun p => ⟨p.x, miny + maxy - p.y⟩) ∧
    ((normGeo geo).transform (placementMat geo)).rect = geo.rect := by
  have hw0 : (maxx - minx) ≠ 0 := ne_of_gt hw
  have hh0 : (maxy - miny) ≠ 0 := ne_of_gt hh
  have hcmds : ((normGeo geo).transform (placementMat geo)).commands =
      geo.commands.map (Cmd.mapPt fun p => ⟨p.x, miny + maxy - p.y⟩) := by
    rw [Geometry.transform_commands,
      normGeo_commands_of_pos geo minx miny maxx maxy hrect ⟨hw, hh⟩,
      map_mapPt_mapPt]
    refine List.map_congr_left (fun c _ => ?_)
    congr 1
    funext p
    simp only [placementMat, hrect, Mat.apply, Mat.comp, Mat.translation,
      Mat.scale]
    ext
    · field_simp
    · field_simp
      ring
  refine ⟨hcmds, ?_⟩
  have hne2 : geo.commands ≠ [] := commands_ne_nil_of_not_empty geo hne
  rw [Geometry.eq_of_commands _ _ hcmds,
    rect_map_reflect geo (miny + maxy) minx miny maxx maxy hrect hne2, hrect]
  simp

/-- Witness for C6 (amended) at the segment from `(0,0)` to `(1,2)`. -/
theorem c6_roundtrip_bbox_witness :
    ((normGeo gC6).transform (placementMat gC6)).commands =
      gC6.commands.map (Cmd.mapPt fun p => ⟨p.x, 0 + 2 - p.y⟩) ∧
    ((normGeo gC6).transform (placementMat gC6)).rect = gC6.rect :=
  c6_roundtrip_bbox gC6 0 0 1 2 (by decide) gC6_rect (by norm_num) (by norm_num)

/-! ### Path assembly (spec §4.2) -/

/-- Whether an edge contributes to `edge_count`: its discretization neither
raises nor returns an empty point list. -/
def edgeOk (e : Edge) : Bool :=
  match e.discretize (1/20) with
  | .ok (_ :: _) => true
  | _ => false

theorem foldl_line_to_commands (ps : List Pt) (g : Geometry) :
    (ps.foldl (fun g p => g.line_to p.x p.y) g).commands =
      g.commands ++ ps.map (fun p => Cmd.lineTo ⟨p.x, p.y⟩) := by
  induction ps generalizing g with
  | nil => simp
  | cons p ps ih =>
    rw [List.foldl_cons, ih, List.map_cons, Geometry.line_to]
    simp

theorem processEdges_commands (edges : List Edge) (g : Geometry) (cnt : Nat) :
    ∃ suf, (processEdges edges g cnt).1.commands = g.commands ++ suf := by
  induction edges generalizing g cnt with
  | nil => exact ⟨[], by simp [processEdges]⟩
  | cons e rest ih =>
    rw [processEdges]
    cases hd : e.discretize (1/20) with
    | error err => exact ih g cnt
    | ok pts =>
      cases pts with
      | nil => exact ih g cnt
      | cons q ps =>
        obtain ⟨suf, hsuf⟩ :=
          ih (ps.foldl (fun g p => g.line_to p.x p.y) g) (cnt + 1)
        exact ⟨ps.map (fun p => Cmd.lineTo ⟨p.x, p.y⟩) ++ suf,
          by rw [hsuf, foldl_line_to_commands, List.append_assoc]⟩

theorem processEdges_count (edges : List Edge) (g : Geometry) (cnt : Nat) :
    (processEdges edges g cnt).2 = cnt + (edges.filter edgeOk).length := by
  induction edges generalizing g cnt with
  | nil => simp [processEdges]
  | cons e rest ih =>
    rw [processEdges]
    cases hd : e.discretize (1/20) with
    | error err =>
      have he : edgeOk e = false := by unfold edgeOk; rw [hd]
      simpa [List.filter_cons, he] using ih g cnt
    | ok pts =>
      cases pts with
      | nil =>
        have he : edgeOk e = false := by unfold edgeOk; rw [hd]
        simpa [List.filter_cons, he] using ih g cnt
      | cons q ps =>
        have he : edgeOk e = true := by unfold edgeOk; rw [hd]
        simp [List.filter_cons, he, ih]
        omega

theorem processWire_cons (e0 : Edge) (rest : List Edge) (g : Geometry)
    (cnt : Nat) (p0 : Pt) (h : e0.startPoint = .ok p0) :
    processWire g cnt ⟨e0 :: rest⟩ =
      .ok (processEdges (e0 :: rest) (g.move_to p0.x p0.y) cnt) := by
  simp [processWire, h]

theorem processWire_ok (g : Geometry) (cnt : Nat) (w : Wire)
    (r : Geometry × Nat) (h : processWire g cnt w = .ok r) :
    ∃ suf, r.1.commands = g.commands ++ suf := by
  obtain ⟨edges⟩ := w
  cases edges with
  | nil =>
    rw [show processWire g cnt ⟨[]⟩ = .ok (g, cnt) from rfl] at h
    injection h with h
    exact ⟨[], by rw [← h]; simp⟩
  | cons e0 rest =>
    rw [show processWire g cnt ⟨e0 :: rest⟩ =
      (match e0.startPoint with
       | .error e => .error e
       | .ok sp => .ok (processEdges (e0 :: rest) (g.move_to sp.x sp.y) cnt))
      from rfl] at h
    cases hs : e0.startPoint with
    | error err => rw [hs] at h; exact Except.noConfusion h
    | ok sp =>
      rw [hs] at h
      injection h with h
      obtain ⟨suf, hsuf⟩ :=
        processEdges_commands (e0 :: rest) (g.move_to sp.x sp.y) cnt
      refine ⟨Cmd.moveTo ⟨sp.x, sp.y⟩ :: suf, ?_⟩
      rw [← h, hsuf]
      simp [Geometry.move_to]

theorem processWires_ok (ws : List Wire) (g : Geometry) (cnt : Nat)
    (r : Geometry × Nat) (h : processWires ws g cnt = .ok r) :
    ∃ suf, r.1.commands = g.commands ++ suf := by
  induction ws generalizing g cnt with
  | nil =>
    rw [processWires] at h
    injection h with h
    exact ⟨[], by simp [← h]⟩
  | cons w ws ih =>
    rw [processWires] at h
    cases hw : processWire g cnt w with
    | error err => rw [hw] at h; exact Except.noConfusion h
    | ok gc =>
      obtain ⟨g2, c2⟩ := gc
      rw [hw] at h
      obtain ⟨s1, hs1⟩ := processWire_ok g cnt w (g2, c2) hw
      have hs1b : g2.commands = g.commands ++ s1 := hs1
      obtain ⟨s2, hs2⟩ := ih g2 c2 h
      exact ⟨s1 ++ s2, by rw [hs2, hs1b, List.append_assoc]⟩

theorem processWires_singleton (w : Wire) (g : Geometry) (cnt : Nat)
    (r : Geometry × Nat) (h : processWire g cnt w = .ok r) :
    processWires [w] g cnt = .ok r := by
  obtain ⟨g2, c2⟩ := r
  simp [processWires, h]

theorem processWires_append (ws1 ws2 : List Wire) (g : Geometry) (cnt : Nat) :
    processWires (ws1 ++ ws2) g cnt =
      match processWires ws1 g cnt with
      | .error e => .error e
      | .ok gc => processWires ws2 gc.1 gc.2 := by
  induction ws1 generalizing g cnt with
  | nil => simp [processWires]
  | cons w ws ih =>
    rw [List.cons_append, processWires, processWires]
    cases processWire g cnt w with
    | error err => rfl
    | ok gc => exact ih gc.1 gc.2

/-! ### Orchestrator-level facts (spec §4.6, §7) -/

theorem normGeo_is_empty (g : Geometry) : (normGeo g).is_empty = g.is_empty := by
  rcases hr : g.rect with ⟨a, b, c, d⟩
  by_cases hc : 0 < c - a ∧ 0 < d - b
  · rw [Geometry.eq_of_commands (normGeo g) _
      (normGeo_commands_of_pos g a b c d hr hc), is_empty_map_commands]
  · rw [Geometry.eq_of_commands (normGeo g) _
      (normGeo_commands_of_nonpos g a b c d hr hc), is_empty_map_commands]

theorem finishGeo_some (geo : Geometry) (p : ImportPayload)
    (h : finishGeo geo = some p) :
    geo.is_empty = false ∧ p.geometry = normGeo geo := by
  rw [finishGeo] at h
  by_cases he : geo.is_empty
  · rw [if_pos he] at h
    exact Option.noConfusion h
  · rw [if_neg he] at h
    refine ⟨Bool.of_not_eq_true he, ?_⟩
    rcases hr : geo.rect with ⟨a, rest⟩
    rcases rest with ⟨b, rest⟩
    rcases rest with ⟨c, d⟩
    rw [hr] at h
    injection h with h
    rw [← h]

theorem tryBodyWires_some (wires : List Wire) (p : ImportPayload)
    (h : tryBodyWires wires = .ok (some p)) :
    ∃ geo, geo.is_empty = false ∧ p.geometry = normGeo geo := by
  rw [tryBodyWires] at h
  by_cases hw : wires.isEmpty
  · rw [if_pos hw] at h
    simp at h
  · rw [if_neg hw] at h
    cases hpw : processWires wires Geometry.empty 0 with
    | error e => rw [hpw] at h; exact Except.noConfusion h
    | ok gc =>
      rw [hpw] at h
      injection h with h
      obtain ⟨h1, h2⟩ := finishGeo_some gc.1 p h
      exact ⟨gc.1, h1, h2⟩

theorem tryBody_some (k : Kernel) (p : ImportPayload)
    (h : tryBody k = .ok (some p)) :
    ∃ geo, geo.is_empty = false ∧ p.geometry = normGeo geo := by
  rw [tryBody] at h
  cases him : k.importStep with
  | error e => rw [him] at h; exact Except.noConfusion h
  | ok model =>
    rw [him] at h
    rw [show (match Except.ok model with
         | Except.error e => (Except.error e : Except Err (Option ImportPayload))
         | Except.ok model => tryBodyModel model) = tryBodyModel model
      from rfl, tryBodyModel] at h
    cases hto : targetObjects model with
    | nil => rw [hto] at h; simp at h
    | cons obj objs =>
      rw [hto] at h
      dsimp only at h
      rw [tryBodyObj.eq_def] at h
      cases hcp : chooseProjection model obj with
      | error e => rw [hcp] at h; exact Except.noConfusion h
      | ok proj =>
        rw [hcp] at h
        rw [show (match Except.ok proj with
             | Except.error e => (Except.error e : Except Err (Option ImportPayload))
             | Except.ok proj => tryBodyProj proj) = tryBodyProj proj
          from rfl, tryBodyProj] at h
        cases hv : proj.vals with
        | error e => rw [hv] at h; exact Except.noConfusion h
        | ok wires =>
          rw [hv] at h
          exact tryBodyWires_some wires p h

/-- A run environment whose temp-file write raises. -/
def tempFailKernel : Kernel :=
  { cqAvailable := true, tempWrite := .error (Err.exn 1),
    importStep := .error (Err.exn 2) }

/-- Counterexample to C1 as stated: the temp-file write of the raw input
bytes (lines 43–45) sits outside the guarded region, so when that write
raises (e.g. a full disk), the exception escapes `get_doc_items` to the
caller instead of producing an absent result. -/
theorem c1_counterexample :
    get_doc_items tempFailKernel = .error (Err.exn 1) := rfl

/-- C1 (amended): once the CadQuery availability check and the unguarded
temp-file write have passed, no exception escapes: for every environment in
which the temp write does not raise, `get_doc_items` returns a clean value —
either `none`, or a payload whose geometry is the complete normalized copy
of a non-empty extracted geometry (never a partial result). -/
theorem c1_no_escape_after_tempfile (k : Kernel)
    (htw : k.tempWrite = .ok ()) :
    (∃ r, get_doc_items k = .ok r) ∧
    (∀ p, get_doc_items k = .ok (some p) →
      p.geometry.is_empty = false ∧
      ∃ geo, geo.is_empty = false ∧ p.geometry = normGeo geo) := by
  constructor
  · rw [get_doc_items]
    cases hcq : k.cqAvailable with
    | false => exact ⟨none, by simp⟩
    | true =>
      rw [htw]
      simp only [if_true]
      cases htb : tryBody k with
      | error e => exact ⟨none, rfl⟩
      | ok r => exact ⟨r, rfl⟩
  · intro p hp
    rw [get_doc_items] at hp
    cases hcq : k.cqAvailable with
    | false => rw [hcq] at hp; simp at hp
    | true =>
      rw [hcq, htw] at hp
      simp only [if_true] at hp
      cases htb : tryBody k with
      | error e => rw [htb] at hp; simp at hp
      | ok r =>
        rw [htb] at hp
        injection hp with hp
        subst hp
        obtain ⟨geo, h1, h2⟩ := tryBody_some k p htb
        refine ⟨?_, geo, h1, h2⟩
        rw [h2, normGeo_is_empty, h1]

/-- Witness for C1 (amended): a run whose temp write succeeds yields a clean
(exception-free) result. -/
theorem c1_no_escape_after_tempfile_witness :
    ∃ r, get_doc_items emptyModelKernel = .ok r :=
  (c1_no_escape_after_tempfile emptyModelKernel rfl).1

/-! ### Loop-level claims -/

/-- An edge whose start point and discretization both succeed. -/
def okEdge (p : Pt) (ps : List Pt) : Edge :=
  { startPoint := .ok p, discretize := fun _ => .ok ps }

/-- An edge whose discretization raises. -/
def failDiscEdge (p : Pt) : Edge :=
  { startPoint := .ok p, discretize := fun _ => .error (Err.exn 3) }

/-- An edge whose start-point evaluation raises. -/
def failStartEdge : Edge :=
  { startPoint := .error (Err.exn 4), discretize := fun _ => .ok [] }

/-- A run environment where parsing succeeds, the single solid has no planar
faces (so the fallback projection is used) and the projection yields the
given wires. -/
def simpleKernel (ws : List Wire) : Kernel :=
  { cqAvailable := true
    tempWrite := .ok ()
    importStep := .ok
      { solids := [noFaceObj], shells := [], looseFaces := [],
        toPending := .ok ⟨.ok ws⟩ } }

theorem get_simpleKernel (ws : List Wire) (hws : ws.isEmpty = false) :
    get_doc_items (simpleKernel ws) =
      match processWires ws Geometry.empty 0 with
      | .error _ => .ok none
      | .ok gc => .ok (finishGeo gc.1) := by
  rw [show get_doc_items (simpleKernel ws) =
      (match tryBodyWires ws with
       | .ok r => (Except.ok r : Except Err (Option ImportPayload))
       | .error _ => Except.ok none) from rfl,
    tryBodyWires.eq_def, if_neg (by simp [hws])]
  cases processWires ws Geometry.empty 0 with
  | error e => rfl
  | ok gc => rfl

/-- C7: per-edge discretization failure is recoverable and never fatal — in
a loop of `N` edges where exactly one edge's discretization raises and every
other edge discretizes to a non-empty point list, the failing edge is
skipped, the remaining edges are processed, the edge count is `N − 1`
(here `pre.length + post.length`), and — provided the loop's start point
evaluates and the remaining assembled geometry is non-empty (the spec's
is-empty predicate: it still holds a usable subpath) — the whole import
still succeeds with a payload. -/
theorem c7_per_edge_failure_recoverable (pre post : List Edge) (bad : Edge)
    (err : Err)
    (hgood : ∀ ed ∈ pre ++ post,
      ∃ ps, ed.discretize (1/20) = .ok ps ∧ ps ≠ [])
    (hbad : bad.discretize (1/20) = .error err) :
    (∀ (geo : Geometry) (cnt : Nat) (r : Geometry × Nat),
      processWire geo cnt ⟨pre ++ bad :: post⟩ = .ok r →
      r.2 = cnt + (pre.length + post.length)) ∧
    (∀ (e0 : Edge) (p0 : Pt), (pre ++ bad :: post).head? = some e0 →
      e0.startPoint = .ok p0 →
      (processEdges (pre ++ bad :: post)
        (Geometry.empty.move_to p0.x p0.y) 0).1.is_empty = false →
      ∃ p, get_doc_items (simpleKernel [⟨pre ++ bad :: post⟩]) =
        .ok (some p)) := by
  have hokAll : ∀ ed ∈ pre ++ post, edgeOk ed = true := by
    intro ed hed
    obtain ⟨ps, hps, hne⟩ := hgood ed hed
    cases ps with
    | nil => exact absurd rfl hne
    | cons q qs => unfold edgeOk; rw [hps]
  have hbadOk : edgeOk bad = false := by unfold edgeOk; rw [hbad]
  have hfilter : ((pre ++ bad :: post).filter edgeOk).length =
      pre.length + post.length := by
    rw [List.filter_append, List.filter_cons, hbadOk]
    simp only [Bool.false_eq_true, if_false]
    rw [List.filter_eq_self.mpr
        (fun e he => hokAll e (List.mem_append_left _ he)),
      List.filter_eq_self.mpr
        (fun e he => hokAll e (List.mem_append_right _ he))]
    simp
  constructor
  · intro geo cnt r hr
    cases hl : pre ++ bad :: post with
    | nil => simp at hl
    | cons e0 rest =>
      rw [hl] at hr
      cases hs : e0.startPoint with
      | error e2 =>
        rw [show processWire geo cnt ⟨e0 :: rest⟩ =
            (match e0.startPoint with
             | .error e => .error e
             | .ok sp =>
                .ok (processEdges (e0 :: rest) (geo.move_to sp.x sp.y) cnt))
          from rfl, hs] at hr
        exact Except.noConfusion hr
      | ok sp =>
        rw [processWire_cons e0 rest geo cnt sp hs] at hr
        injection hr with hr
        rw [← hr, processEdges_count, ← hl, hfilter]
  · intro e0 p0 hh hs hne
    cases hl : pre ++ bad :: post with
    | nil => rw [hl] at hh; exact Option.noConfusion hh
    | cons e1 rest =>
      rw [hl] at hh hne
      have he1 : e1 = e0 := Option.some.inj hh
      subst he1
      rw [get_simpleKernel [⟨e1 :: rest⟩] rfl]
      have h2 : processWire Geometry.empty 0 ⟨e1 :: rest⟩ =
          .ok (processEdges (e1 :: rest)
            (Geometry.empty.move_to p0.x p0.y) 0) :=
        processWire_cons e1 rest Geometry.empty 0 p0 hs
      have hpw : processWires [⟨e1 :: rest⟩] Geometry.empty 0 =
          .ok (processEdges (e1 :: rest)
            (Geometry.empty.move_to p0.x p0.y) 0) :=
        processWires_singleton _ _ _ _ h2
      rw [hpw]
      dsimp only
      rw [finishGeo, if_neg (by simp [hne])]
      rcases hr : (processEdges (e1 :: rest)
          (Geometry.empty.move_to p0.x p0.y) 0).1.rect with ⟨a, b, c, d⟩
      exact ⟨_, rfl⟩

/-- Three concrete edges: two good ones and one whose discretization
raises. -/
def wE1 : Edge := okEdge ⟨0, 0⟩ [⟨0, 0⟩, ⟨1, 0⟩]

def wE2 : Edge := okEdge ⟨1, 0⟩ [⟨1, 0⟩, ⟨1, 1⟩]

def wBad : Edge := failDiscEdge ⟨0, 0⟩

/-- Witness for C7: a three-edge loop whose middle edge fails to discretize
still imports successfully. -/
theorem c7_per_edge_failure_recoverable_witness :
    ∃ p, get_doc_items (simpleKernel [⟨[wE1] ++ wBad :: [wE2]⟩]) =
      .ok (some p) :=
  (c7_per_edge_failure_recoverable [wE1] [wE2] wBad (Err.exn 3)
    (by
      intro ed hed
      simp only [List.singleton_append, List.mem_cons,
        List.not_mem_nil, or_false] at hed
      rcases hed with rfl | rfl
      · exact ⟨[⟨0, 0⟩, ⟨1, 0⟩], rfl, by simp⟩
      · exact ⟨[⟨1, 0⟩, ⟨1, 1⟩], rfl, by simp⟩)
    rfl).2 wE1 ⟨0, 0⟩ rfl rfl (by decide)

theorem processWire_nil_edges (geo : Geometry) (cnt : Nat) (w : Wire)
    (hw : w.edges = []) : processWire geo cnt w = .ok (geo, cnt) := by
  rw [processWire.eq_def, hw]

theorem processWire_startfail (w : Wire) (e0 : Edge) (err : Err)
    (geo : Geometry) (cnt : Nat) (hh : w.edges.head? = some e0)
    (hs : e0.startPoint = .error err) :
    processWire geo cnt w = .error err := by
  obtain ⟨edges⟩ := w
  cases edges with
  | nil => exact Option.noConfusion hh
  | cons e1 rest =>
    have he : e1 = e0 := Option.some.inj hh
    subst he
    rw [show processWire geo cnt ⟨e1 :: rest⟩ =
        (match e1.startPoint with
         | .error e => (.error e : Except Err (Geometry × Nat))
         | .ok sp =>
            .ok (processEdges (e1 :: rest) (geo.move_to sp.x sp.y) cnt))
      from rfl, hs]

/-- A loop of one edge from `(0,0)` to `(1,1)`. -/
def wGood : Wire := ⟨[okEdge ⟨0, 0⟩ [⟨0, 0⟩, ⟨1, 1⟩]]⟩

/-- A loop whose first (and only) edge's start-point evaluation raises. -/
def wBadStart : Wire := ⟨[failStartEdge]⟩

/-- A loop whose single edge has start point `(1,1)` but fails to
discretize. -/
def wBadDisc : Wire := ⟨[failDiscEdge ⟨1, 1⟩]⟩

/-- The geometry extracted from `wGood` alone. -/
def gGood : Geometry := ⟨[.moveTo ⟨0, 0⟩, .lineTo ⟨1, 1⟩]⟩

/-- The geometry extracted from `[wGood, wBadDisc]`. -/
def gTwo : Geometry := ⟨[.moveTo ⟨0, 0⟩, .lineTo ⟨1, 1⟩, .moveTo ⟨1, 1⟩]⟩

/-- The payload the pipeline produces from `gGood`. -/
def pGood : ImportPayload :=
  { geometry := ⟨[.moveTo ⟨0, 1⟩, .lineTo ⟨1, 0⟩]⟩,
    widthMm := 1, heightMm := 1, matrix := ⟨1, 0, 0, 1, 0, 0⟩ }

/-- The payload the pipeline produces from `gTwo`. -/
def pTwo : ImportPayload :=
  { geometry := ⟨[.moveTo ⟨0, 1⟩, .lineTo ⟨1, 0⟩, .moveTo ⟨1, 0⟩]⟩,
    widthMm := 1, heightMm := 1, matrix := ⟨1, 0, 0, 1, 0, 0⟩ }

theorem gGood_rect : gGood.rect = (0, 0, 1, 1) := by decide

theorem gTwo_rect : gTwo.rect = (0, 0, 1, 1) := by decide

theorem normGeo_gGood : normGeo gGood = ⟨[.moveTo ⟨0, 1⟩, .lineTo ⟨1, 0⟩]⟩ := by
  apply Geometry.eq_of_commands
  rw [normGeo_commands_of_pos gGood 0 0 1 1 gGood_rect
    ⟨by norm_num, by norm_num⟩]
  norm_num [gGood, Cmd.mapPt]

theorem normGeo_gTwo :
    normGeo gTwo = ⟨[.moveTo ⟨0, 1⟩, .lineTo ⟨1, 0⟩, .moveTo ⟨1, 0⟩]⟩ := by
  apply Geometry.eq_of_commands
  rw [normGeo_commands_of_pos gTwo 0 0 1 1 gTwo_rect
    ⟨by norm_num, by norm_num⟩]
  norm_num [gTwo, Cmd.mapPt]

theorem placement_gGood : placementMat gGood = ⟨1, 0, 0, 1, 0, 0⟩ := by
  simp only [placementMat, gGood_rect, Mat.comp, Mat.translation, Mat.scale]
  norm_num [Mat.mk.injEq]

theorem placement_gTwo : placementMat gTwo = ⟨1, 0, 0, 1, 0, 0⟩ := by
  simp only [placementMat, gTwo_rect, Mat.comp, Mat.translation, Mat.scale]
  norm_num [Mat.mk.injEq]

theorem finish_gGood : finishGeo gGood = some pGood := by
  rw [finishGeo, if_neg (by decide), gGood_rect]
  dsimp only
  rw [normGeo_gGood, placement_gGood]
  norm_num [pGood, ImportPayload.mk.injEq]

theorem finish_gTwo : finishGeo gTwo = some pTwo := by
  rw [finishGeo, if_neg (by decide), gTwo_rect]
  dsimp only
  rw [normGeo_gTwo, placement_gTwo]
  norm_num [pTwo, ImportPayload.mk.injEq]

/-- Counterexample to C8 as stated: with a good first loop and a second loop
whose first edge's start point raises (line 111 is unguarded), the import
returns `None` and the good loop's geometry is discarded — while importing
the good loop alone succeeds.  The failing loop is therefore fatal, not
skipped. -/
theorem c8_counterexample :
    get_doc_items (simpleKernel [wGood, wBadStart]) = .ok none ∧
    get_doc_items (simpleKernel [wGood]) = .ok (some pGood) := by
  constructor
  · rfl
  · rw [get_simpleKernel [wGood] rfl,
      show processWires [wGood] Geometry.empty 0 = .ok (gGood, 1) from rfl]
    dsimp only
    rw [finish_gGood]

/-- C8 (amended): a projected loop with zero edges is skipped entirely and
the skip is not fatal to the import; but when evaluating the start point of
a loop's first edge raises, the exception aborts the wire loop — the
remaining loops are not assembled and the import returns an absent result,
even when the geometry assembled from earlier loops is non-empty. -/
theorem c8_empty_loop_skipped_start_failure_fatal :
    (∀ (geo : Geometry) (cnt : Nat) (w : Wire), w.edges = [] →
      processWire geo cnt w = .ok (geo, cnt)) ∧
    (∀ (w : Wire) (e0 : Edge) (err : Err) (geo : Geometry) (cnt : Nat),
      w.edges.head? = some e0 → e0.startPoint = .error err →
      processWire geo cnt w = .error err) ∧
    (∀ (ws1 ws2 : List Wire) (w : Wire) (e0 : Edge) (err : Err)
      (gc : Geometry × Nat),
      processWires ws1 Geometry.empty 0 = .ok gc →
      w.edges.head? = some e0 → e0.startPoint = .error err →
      get_doc_items (simpleKernel (ws1 ++ w :: ws2)) = .ok none) := by
  refine ⟨processWire_nil_edges, processWire_startfail, ?_⟩
  intro ws1 ws2 w e0 err gc h1 hh hs
  have hwne : (ws1 ++ w :: ws2).isEmpty = false := by
    cases hl : ws1 ++ w :: ws2 with
    | nil => simp at hl
    | cons a l => rfl
  have hw2 : processWire gc.1 gc.2 w = .error err :=
    processWire_startfail w e0 err gc.1 gc.2 hh hs
  have hpw : processWires (ws1 ++ w :: ws2) Geometry.empty 0 =
      .error err := by
    rw [processWires_append, h1]
    dsimp only
    simp [processWires, hw2]
  rw [get_simpleKernel _ hwne, hpw]

/-- Witness for C8 (amended): the concrete two-loop run aborts with an
absent result. -/
theorem c8_empty_loop_skipped_start_failure_fatal_witness :
    get_doc_items (simpleKernel ([wGood] ++ wBadStart :: [])) = .ok none :=
  c8_empty_loop_skipped_start_failure_fatal.2.2 [wGood] [] wBadStart
    failStartEdge (Err.exn 4) (gGood, 1) rfl rfl rfl

/-- Counterexample to C9 as stated: a successful import whose second loop
contributed only its start point (its sole edge failed to discretize)
returns a payload containing a one-point subpath, violating the "every
subpath has ≥ 2 points" invariant. -/
theorem c9_counterexample :
    get_doc_items (simpleKernel [wGood, wBadDisc]) = .ok (some pTwo) ∧
    (pTwo.geometry.subpaths.all fun sp => decide (2 ≤ sp.length)) = false := by
  constructor
  · rw [get_simpleKernel [wGood, wBadDisc] rfl,
      show processWires [wGood, wBadDisc] Geometry.empty 0 = .ok (gTwo, 1)
        from rfl]
    dsimp only
    rw [finish_gTwo]
  · decide

theorem subpath_emit_ne_nil (cur : List Pt) (hc : ¬ cur.isEmpty = true) :
    cur.reverse ≠ [] := by
  cases cur with
  | nil => exact absurd rfl hc
  | cons a l => simp

theorem subpathsGo_ne_nil (cmds : List Cmd) :
    ∀ (cur : List Pt), ∀ sp ∈ subpathsGo cmds cur, sp ≠ [] := by
  induction cmds with
  | nil =>
    intro cur sp hsp
    simp only [subpathsGo] at hsp
    by_cases hc : cur.isEmpty
    · rw [if_pos hc] at hsp
      simp at hsp
    · rw [if_neg hc] at hsp
      simp at hsp
      subst hsp
      exact subpath_emit_ne_nil cur hc
  | cons c rest ih =>
    intro cur sp hsp
    cases c with
    | moveTo p =>
      simp only [subpathsGo] at hsp
      rcases List.mem_append.mp hsp with h | h
      · by_cases hc : cur.isEmpty
        · rw [if_pos hc] at h
          simp at h
        · rw [if_neg hc] at h
          simp at h
          subst h
          exact subpath_emit_ne_nil cur hc
      · exact ih [p] sp h
    | lineTo p =>
      simp only [subpathsGo] at hsp
      exact ih (p :: cur) sp hsp

/-- C9 (amended): in every geometry returned inside a successful payload,
every subpath is non-empty — it contains at least 1 point (the loop's start
point).  The stronger "≥ 2 points" bound of the claim fails: a loop whose
every edge discretization fails or returns too few points leaves a one-point
subpath. -/
theorem c9_subpaths_nonempty (k : Kernel) (p : ImportPayload)
    (h : get_doc_items k = .ok (some p)) :
    ∀ sp ∈ p.geometry.subpaths, 1 ≤ sp.length := by
  intro sp hsp
  have hne : sp ≠ [] := subpathsGo_ne_nil p.geometry.commands [] sp hsp
  exact List.length_pos.mpr hne

/-- Witness for C9 (amended) at the concrete two-loop import: its second
(one-point) subpath has at least one point. -/
theorem c9_subpaths_nonempty_witness :
    1 ≤ (pTwo.geometry.subpaths.getD 1 []).length :=
  c9_subpaths_nonempty (simpleKernel [wGood, wBadDisc]) pTwo
    (by
      rw [get_simpleKernel [wGood, wBadDisc] rfl,
        show processWires [wGood, wBadDisc] Geometry.empty 0 = .ok (gTwo, 1)
          from rfl]
      dsimp only
      rw [finish_gTwo])
    (pTwo.geometry.subpaths.getD 1 []) (by decide)

/-! ### Determinism (spec §8, idempotence) -/

/-- Observable agreement of two edge handles: every capability call returns
the same result. -/
def EdgeAgrees (e1 e2 : Edge) : Prop :=
  e1.startPoint = e2.startPoint ∧ ∀ t, e1.discretize t = e2.discretize t

def WireAgrees (w1 w2 : Wire) : Prop :=
  List.Forall₂ EdgeAgrees w1.edges w2.edges

def ProjectionAgrees (p1 p2 : Projection) : Prop :=
  match p1.vals, p2.vals with
  | .error a, .error b => a = b
  | .ok ws1, .ok ws2 => List.Forall₂ WireAgrees ws1 ws2
  | _, _ => False

def ExceptProjectionAgrees :
    Except Err Projection → Except Err Projection → Prop
  | .error a, .error b => a = b
  | .ok p1, .ok p2 => ProjectionAgrees p1 p2
  | _, _ => False

def CadObjAgrees (o1 o2 : CadObj) : Prop :=
  o1.planarFaces = o2.planarFaces ∧
  ∀ f, ExceptProjectionAgrees (o1.alignProject f) (o2.alignProject f)

def ModelAgrees (m1 m2 : Model) : Prop :=
  List.Forall₂ CadObjAgrees m1.solids m2.solids ∧
  List.Forall₂ CadObjAgrees m1.shells m2.shells ∧
  List.Forall₂ CadObjAgrees m1.looseFaces m2.looseFaces ∧
  ExceptProjectionAgrees m1.toPending m2.toPending

/-- Observable agreement of two whole run environments. -/
def KernelAgrees (k1 k2 : Kernel) : Prop :=
  k1.cqAvailable = k2.cqAvailable ∧
  k1.tempWrite = k2.tempWrite ∧
  (match k1.importStep, k2.importStep with
   | .error a, .error b => a = b
   | .ok m1, .ok m2 => ModelAgrees m1 m2
   | _, _ => False)

theorem forall2_eq {α : Type} {r : α → α → Prop}
    (hr : ∀ a b, r a b → a = b) :
    ∀ {l1 l2 : List α}, List.Forall₂ r l1 l2 → l1 = l2 := by
  intro l1 l2 h
  induction h with
  | nil => rfl
  | cons h1 _ ih => rw [hr _ _ h1, ih]

theorem edgeAgrees_eq (e1 e2 : Edge) (h : EdgeAgrees e1 e2) : e1 = e2 := by
  obtain ⟨h1, h2⟩ := h
  cases e1
  cases e2
  simp only [Edge.mk.injEq]
  exact ⟨h1, funext h2⟩

theorem wireAgrees_eq (w1 w2 : Wire) (h : WireAgrees w1 w2) : w1 = w2 := by
  cases w1
  cases w2
  simp only [Wire.mk.injEq]
  exact forall2_eq edgeAgrees_eq h

theorem projectionAgrees_eq (p1 p2 : Projection)
    (h : ProjectionAgrees p1 p2) : p1 = p2 := by
  obtain ⟨v1⟩ := p1
  obtain ⟨v2⟩ := p2
  simp only [Projection.mk.injEq]
  cases v1 with
  | error a =>
    cases v2 with
    | error b => rw [show a = b from h]
    | ok ws2 => exact absurd h (by simp [ProjectionAgrees])
  | ok ws1 =>
    cases v2 with
    | error b => exact absurd h (by simp [ProjectionAgrees])
    | ok ws2 =>
      have : ws1 = ws2 := forall2_eq wireAgrees_eq h
      rw [this]

theorem exceptProjectionAgrees_eq (x1 x2 : Except Err Projection)
    (h : ExceptProjectionAgrees x1 x2) : x1 = x2 := by
  cases x1 with
  | error a =>
    cases x2 with
    | error b => rw [show a = b from h]
    | ok p2 => exact absurd h (by simp [ExceptProjectionAgrees])
  | ok p1 =>
    cases x2 with
    | error b => exact absurd h (by simp [ExceptProjectionAgrees])
    | ok p2 => rw [projectionAgrees_eq p1 p2 h]

theorem cadObjAgrees_eq (o1 o2 : CadObj) (h : CadObjAgrees o1 o2) :
    o1 = o2 := by
  obtain ⟨h1, h2⟩ := h
  cases o1
  cases o2
  simp only [CadObj.mk.injEq]
  exact ⟨h1, funext fun f => exceptProjectionAgrees_eq _ _ (h2 f)⟩

theorem modelAgrees_eq (m1 m2 : Model) (h : ModelAgrees m1 m2) :
    m1 = m2 := by
  obtain ⟨h1, h2, h3, h4⟩ := h
  cases m1
  cases m2
  simp only [Model.mk.injEq]
  exact ⟨forall2_eq cadObjAgrees_eq h1, forall2_eq cadObjAgrees_eq h2,
    forall2_eq cadObjAgrees_eq h3, exceptProjectionAgrees_eq _ _ h4⟩

theorem kernelAgrees_eq (k1 k2 : Kernel) (h : KernelAgrees k1 k2) :
    k1 = k2 := by
  obtain ⟨h1, h2, h3⟩ := h
  cases k1 with
  | mk cq1 tw1 is1 =>
    cases k2 with
    | mk cq2 tw2 is2 =>
      simp only [Kernel.mk.injEq]
      refine ⟨h1, h2, ?_⟩
      cases is1 with
      | error a =>
        cases is2 with
        | error b => rw [show a = b from h3]
        | ok m2 => exact absurd h3 (by simp)
      | ok m1 =>
        cases is2 with
        | error b => exact absurd h3 (by simp)
        | ok m2 => rw [modelAgrees_eq m1 m2 h3]

/-- C10: determinism — two runs of the full import pipeline whose external
kernel behaves identically (every capability call returns the same result)
produce identical outputs, in particular bit-identical geometry with the
same subpaths in the same order; the pipeline itself introduces no
nondeterminism in face sorting, loop traversal or edge traversal. -/
theorem c10_deterministic (k1 k2 : Kernel) (h : KernelAgrees k1 k2) :
    get_doc_items k1 = get_doc_items k2 := by
  rw [kernelAgrees_eq k1 k2 h]

/-- Witness for C10: a concrete environment agrees with itself, and the two
runs coincide. -/
theorem c10_deterministic_witness :
    get_doc_items (simpleKernel [wGood]) =
      get_doc_items (simpleKernel [wGood]) :=
  c10_deterministic (simpleKernel [wGood]) (simpleKernel [wGood])
    ⟨rfl, rfl, List.Forall₂.cons
        ⟨rfl, fun _ => rfl⟩ List.Forall₂.nil,
      List.Forall₂.nil, List.Forall₂.nil,
      List.Forall₂.cons (List.Forall₂.cons
        ⟨rfl, fun _ => rfl⟩ List.Forall₂.nil) List.Forall₂.nil⟩

end Rayforge
